import Mathlib

/-!
Verification development for `sima/sequence.py`.

The development is a shallow embedding of the sequence layer of the SIMA
imaging library: the Python index values handed to `__getitem__`, the
basic-indexing fragment of numpy arrays used by the source (no-step slices,
integers, `None`), the `_IndexedSequence` / `_MotionCorrectedSequence`
wrappers, the `_Sequence_HDF5._get_frame` axis handling, the `_fill_gaps`
two-pass stream algorithm (with IEEE NaN propagation made explicit), and the
`_resolve_paths` relocation logic.

Modelling conventions:
* Machine floats are modelled as `Option ℚ`: `Option.none` is NaN, `some q` a
  finite value.  The only float operations the modelled code performs are
  `x + 0`, `0 * x`, `1 * x`, `nan_to_num` and NaN tests, all of which are
  exact in IEEE arithmetic, so rationals are faithful; `0 * NaN = NaN` and
  `x + NaN = NaN` are modelled explicitly.
* Fallible Python code returns `Except PyErr`.
* numpy arrays are a shape together with a total data function; validity of a
  coordinate vector is governed by the shape.
-/

namespace Sima

/-- Python exception kinds raised by the modelled code.  `movedError` is the
`Exception('Files have been moved. ...')` raised by `_resolve_paths`;
`missingFileError` is the distinct missing-file error kind that the
specification's error taxonomy postulates for path resolution when no
candidate file exists — the source never raises it, and it is included only so
that statements about that claim can be expressed.  `recursionError` models
Python's runtime error on exceeding the recursion limit and serves as the
fuel-exhaustion marker of the recursive `__getitem__`. -/
inductive PyErr where
  | typeError
  | indexError
  | valueError
  | movedError
  | missingFileError
  | recursionError
deriving DecidableEq, Repr

/-- One Python index expression as used by the source: an integer, a no-step
slice `slice(a, b)` (`slice(None)` is `slice Option.none Option.none`), or
`None`.  The source never builds slices with a step. -/
inductive PyIndex where
  | int (i : ℤ)
  | slice (a b : Option ℤ)
  | none
deriving DecidableEq, Repr

/-- The argument of `__getitem__`: either a bare (scalar) index or a tuple of
indices. -/
inductive PyArg where
  | scalar (i : PyIndex)
  | tuple (l : List PyIndex)
deriving DecidableEq, Repr

/-- Python `len()` applied to a `__getitem__` argument.  `len` of a tuple is
its arity; `len` of an `int`, a `slice` or `None` raises `TypeError`. -/
def pyLen : PyArg → Except PyErr ℕ
  | PyArg.tuple l => Except.ok l.length
  | PyArg.scalar _ => Except.error PyErr.typeError

/-- The normalisation `indices if isinstance(indices, tuple) else (indices,)`
performed by the source before positional access. -/
def argToTuple : PyArg → List PyIndex
  | PyArg.tuple l => l
  | PyArg.scalar i => [i]

/-- Resolution of one slice bound against a dimension of size `d`, following
Python slice semantics: negative bounds count from the end and the result is
clamped into `[0, d]`. -/
def resolveBound (d : ℕ) (v : ℤ) : ℕ :=
  if v < 0 then (max (v + d) 0).toNat else min v.toNat d

/-- The list of positions selected by the no-step slice `slice(a, b)` from a
dimension of size `d` (Python and numpy share these semantics). -/
def sliceIndices (d : ℕ) (a b : Option ℤ) : List ℕ :=
  let lo := match a with
    | some v => resolveBound d v
    | Option.none => 0
  let hi := match b with
    | some v => resolveBound d v
    | Option.none => d
  List.range' lo (hi - lo)

/-- Python list indexing `l[i]` with a (possibly negative) integer index;
out-of-range raises `IndexError`. -/
def pyGetElem {α : Type} (l : List α) (i : ℤ) : Except PyErr α :=
  let j : ℤ := if i < 0 then i + l.length else i
  if h : 0 ≤ j ∧ j.toNat < l.length then Except.ok (l.get ⟨j.toNat, h.2⟩)
  else Except.error PyErr.indexError

/-- Python list element assignment `l[i] = v` with a possibly negative index;
out-of-range raises `IndexError`. -/
def pySet {α : Type} (l : List α) (i : ℤ) (v : α) : Except PyErr (List α) :=
  let j : ℤ := if i < 0 then i + l.length else i
  if 0 ≤ j ∧ j.toNat < l.length then Except.ok (l.set j.toNat v)
  else Except.error PyErr.indexError

/-- Python list slicing/indexing of a list by one `PyIndex`, as used for
`range(base_len)[indices[0]]` in `_IndexedSequence.__init__`.  A slice returns
the selected sublist; `None` raises `TypeError` (`list indices must be
integers, not NoneType`).  An `int` index cannot reach this point in the
source: `__init__` has already rewritten every integer index into a
single-element slice, and a bare int would return one element rather than a
list; the model reports it as a `TypeError` and no modelled claim exercises
it. -/
def pyListSlice (l : List ℕ) : PyIndex → Except PyErr (List ℕ)
  | PyIndex.slice a b =>
      Except.ok ((sliceIndices l.length a b).map (fun i => l.getD i 0))
  | PyIndex.none => Except.error PyErr.typeError
  | PyIndex.int _ => Except.error PyErr.typeError

/-- Normalisation of a (nonnegative-range-checked) integer index against a
dimension of size `d`, numpy style: negative indices count from the end, and
an index out of `[0, d)` raises `IndexError`. -/
def pyNormIndex (d : ℕ) (i : ℤ) : Except PyErr ℕ :=
  let j : ℤ := if i < 0 then i + d else i
  if 0 ≤ j ∧ j.toNat < d then Except.ok j.toNat
  else Except.error PyErr.indexError

/-- A numpy array: a shape and a total data function on coordinate vectors.
A coordinate vector is meaningful when it is componentwise below the shape;
the data function's values outside that domain are irrelevant junk. -/
structure NDArray where
  shape : List ℕ
  data : List ℕ → ℚ

/-- Componentwise validity of a coordinate vector for a shape. -/
def coordOK (sh v : List ℕ) : Prop := List.Forall₂ (fun i d => i < d) v sh

/-- Extensional equality of numpy arrays: equal shapes and equal data on every
valid coordinate vector. -/
def NDEquiv (a b : NDArray) : Prop :=
  a.shape = b.shape ∧ ∀ v, coordOK a.shape v → a.data v = b.data v

/-- numpy basic indexing of a shape by a selector tuple, returning the result
shape together with the map from result coordinates back to source
coordinates.  A slice keeps its axis (clamped, never failing), an integer
drops its axis (range-checked), `None` inserts a fresh axis, and more
selectors than axes raise `IndexError` (numpy: too many indices). -/
def applySels : List PyIndex → List ℕ → Except PyErr (List ℕ × (List ℕ → List ℕ))
  | [], ds => Except.ok (ds, fun v => v)
  | PyIndex.none :: sels, ds => do
      let (sh, tf) ← applySels sels ds
      Except.ok (1 :: sh, fun v => tf (v.drop 1))
  | PyIndex.slice a b :: sels, d :: ds => do
      let idxs := sliceIndices d a b
      let (sh, tf) ← applySels sels ds
      Except.ok (idxs.length :: sh, fun v => idxs.getD (v.headD 0) 0 :: tf (v.drop 1))
  | PyIndex.int i :: sels, d :: ds => do
      let j ← pyNormIndex d i
      let (sh, tf) ← applySels sels ds
      Except.ok (sh, fun v => j :: tf v)
  | _ :: _, [] => Except.error PyErr.indexError

/-- numpy basic indexing `a[sels]` of an array by a selector tuple. -/
def applyIndexArr (a : NDArray) (sels : List PyIndex) : Except PyErr NDArray :=
  (applySels sels a.shape).map (fun p => ⟨p.1, fun v => a.data (p.2 v)⟩)

/-- Swap of two entries of a list (total; indices in range in every use). -/
def listSwap {α : Type} (dflt : α) (l : List α) (i j : ℕ) : List α :=
  (l.set i (l.getD j dflt)).set j (l.getD i dflt)

/-- numpy `swapaxes`: exchanging two axes of an array.  Note that in numpy
this returns a new view and does not mutate its receiver. -/
def swapaxes (a : NDArray) (i j : ℕ) : NDArray :=
  ⟨listSwap 0 a.shape i j, fun v => a.data (listSwap 0 v i j)⟩

/-- Shorthand for `slice(None)`, the full-range selector. -/
def fullSlice : PyIndex := PyIndex.slice Option.none Option.none

/-- State of an `_IndexedSequence` after `__init__`: the base length captured
as `self._base_len`, the selector tuple after the integer-to-slice
normalisation (`self._indices`), and the precomputed selected time indices
(`self._times`). -/
structure IdxSeq where
  baseLen : ℕ
  indices : List PyIndex
  times : List ℕ
deriving DecidableEq, Repr

/-- The reformatting `slice(i, i+1) if isinstance(i, int) else i` applied to
each selector by `_IndexedSequence.__init__` to avoid dimension collapse. -/
def normIndex : PyIndex → PyIndex
  | PyIndex.int i => PyIndex.slice (some i) (some (i + 1))
  | x => x

/-- The body of `_IndexedSequence.__init__`: wrap a non-tuple argument into a
tuple, rewrite integer selectors to single-element slices, and compute
`self._times = range(self._base_len)[self._indices[0]]`.  Accessing
`self._indices[0]` of an empty tuple raises `IndexError`; indexing the
`range` list with a `None` selector raises `TypeError`. -/
def mkIdx (baseLen : ℕ) (arg : PyArg) : Except PyErr IdxSeq :=
  let norm := (argToTuple arg).map normIndex
  match norm.head? with
  | Option.none => Except.error PyErr.indexError
  | some h => (pyListSlice (List.range baseLen) h).map (fun ts => ⟨baseLen, norm, ts⟩)

/-- The loop body of `_IndexedSequence.__iter__` on a random-access base
(`for t in self._times: yield self._base._get_frame(t)[self._indices[1:]]`),
with the base's `_get_frame` given as a function from time to frame. -/
def iterIdxFrames (frame : ℕ → NDArray) (sels : List PyIndex) :
    List ℕ → Except PyErr (List NDArray)
  | [] => Except.ok []
  | t :: ts => do
      let g ← applyIndexArr (frame t) sels
      let rest ← iterIdxFrames frame sels ts
      Except.ok (g :: rest)

/-- `_IndexedSequence.__iter__` over a random-access base. -/
def iterIdxSeq (frame : ℕ → NDArray) (s : IdxSeq) : Except PyErr (List NDArray) :=
  iterIdxFrames frame s.indices.tail s.times

/-- `_IndexedSequence._get_frame(t)`: translate the local index through
`self._times`, fetch from the base, then apply the remaining selectors. -/
def idxGetFrame (frame : ℕ → NDArray) (s : IdxSeq) (t : ℤ) : Except PyErr NDArray := do
  let bt ← pyGetElem s.times t
  applyIndexArr (frame bt) s.indices.tail

/-- `_IndexedSequence.__len__`: `len(range(len(self._base))[self._indices[0]])`.
The base is immutable, so this recomputation yields exactly the length of the
`self._times` list computed by `__init__` from the same base length and the
same normalised selector; the model reads it off the stored list. -/
def idxLen (s : IdxSeq) : ℕ := s.times.length

/-- The sequence-object universe the wrapper claims need: a leaf
random-access sequence (any `_IndexableSequence`, e.g. `_Sequence_HDF5`,
presented by its length and its `_get_frame`), an `_IndexedSequence`, and a
`_MotionCorrectedSequence` with its displacement array and target frame
shape. -/
inductive SeqObj where
  | leaf (len : ℕ) (frame : ℕ → NDArray)
  | indexed (base : SeqObj) (s : IdxSeq)
  | motion (base : SeqObj) (displacements : NDArray) (frame_shape : List ℕ)

/-- `len()` of a sequence object: a leaf reports its backing length
(`_Sequence_HDF5.__len__` reads the time-axis size), `_IndexedSequence`
recomputes the selected-times count (see `idxLen`), and
`_MotionCorrectedSequence.__len__` is `len(self._base)`. -/
def seqLen : SeqObj → ℕ
  | SeqObj.leaf n _ => n
  | SeqObj.indexed _ s => idxLen s
  | SeqObj.motion b _ _ => seqLen b

/-- `Sequence.__getitem__`: build an `_IndexedSequence` over the receiver
(the constructor itself may raise). -/
def mkIndexedObj (b : SeqObj) (arg : PyArg) : Except PyErr SeqObj :=
  (mkIdx (seqLen b) arg).map (SeqObj.indexed b)

/-- `__getitem__` on sequence objects.  For a leaf or an `_IndexedSequence`
this is `Sequence.__getitem__`.  For a `_MotionCorrectedSequence` it is the
specialised `_MotionCorrectedSequence.__getitem__`:

* `if len(indices) > 5: raise ValueError` — applied to the raw argument, so a
  bare `int` or `slice` argument raises `TypeError` inside `len()` before any
  normalisation;
* a non-trivial time selector is pushed down: the base and the displacement
  array are sliced with it and the result is re-wrapped and re-indexed with
  `(None,) + indices[1:]`;
* with exactly 5 selectors and a trivial time selector the source reads
  `chans = indices[5]`, which on a 5-tuple raises `IndexError` (the channel
  push-down code below it is unreachable but is translated faithfully);
* otherwise the receiver is wrapped in an `_IndexedSequence`.

The `fuel` argument bounds the recursion depth of the source's self-calls;
exhausting it is reported as `recursionError` (Python's recursion-limit
runtime error). -/
def getitem : ℕ → SeqObj → PyArg → Except PyErr SeqObj
  | _, b@(SeqObj.leaf _ _), arg => mkIndexedObj b arg
  | _, b@(SeqObj.indexed _ _), arg => mkIndexedObj b arg
  | 0, SeqObj.motion _ _ _, _ => Except.error PyErr.recursionError
  | fuel + 1, SeqObj.motion b disp fshape, arg => do
      let n ← pyLen arg
      if 5 < n then Except.error PyErr.valueError
      else
        let indices := argToTuple arg
        match indices.head? with
        | Option.none => Except.error PyErr.indexError
        | some times =>
          if times ≠ PyIndex.none ∧ times ≠ fullSlice then do
            let nb ← getitem fuel b (PyArg.scalar times)
            let nd ← applyIndexArr disp [times]
            getitem fuel (SeqObj.motion nb nd fshape)
              (PyArg.tuple (PyIndex.none :: indices.tail))
          else if indices.length = 5 then
            match indices.get? 5 with
            | some chans => do
                let nb ← getitem fuel b
                  (PyArg.tuple [fullSlice, fullSlice, fullSlice, fullSlice, chans])
                let nd ← applyIndexArr disp [fullSlice, fullSlice, fullSlice, chans]
                getitem fuel (SeqObj.motion nb nd fshape) (PyArg.tuple (indices.take 5))
            | Option.none => Except.error PyErr.indexError
          else mkIndexedObj (SeqObj.motion b disp fshape) (PyArg.tuple indices)

/-- Python `str.find`: index of the first occurrence of a character, `-1` when
absent. -/
def pyFindChar (s : List Char) (c : Char) : ℤ :=
  if c ∈ s then (s.indexOf c : ℤ) else -1

/-- State of a `_Sequence_HDF5` relevant to frame access: the loaded dataset
(the h5py file handling itself is I/O and outside the embedding) and the
declared dimension-order string. -/
structure HDF5Seq where
  dataset : NDArray
  dim_order : List Char

/-- The `dim_order` validation of `_Sequence_HDF5.__init__`: its length must
equal the rank of the stored dataset, else `ValueError`. -/
def mkSequenceHDF5 (ds : NDArray) (dim_order : List Char) : Except PyErr HDF5Seq :=
  if dim_order.length = ds.shape.length then Except.ok ⟨ds, dim_order⟩
  else Except.error PyErr.valueError

/-- `len(self)` of a `_Sequence_HDF5`: the dataset size along the time axis. -/
def hdf5Len (s : HDF5Seq) : Except PyErr ℕ := do
  let tD := pyFindChar s.dim_order 't'
  let sh ← pyGetElem s.dataset.shape tD
  Except.ok sh

/-- First index of the minimum of a list (`np.argmin` on a Python list of
ints); `np.argmin` of an empty sequence raises `ValueError`. -/
def argminGo : List ℕ → ℕ → ℕ → ℕ → ℕ
  | [], _, bi, _ => bi
  | y :: ys, best, bi, i =>
      if y < best then argminGo ys y i (i + 1) else argminGo ys best bi (i + 1)

/-- See `argminGo`. -/
def argminIdx : List ℕ → Except PyErr ℕ
  | [] => Except.error PyErr.valueError
  | x :: xs => Except.ok (argminGo xs x 0 1)

/-- The axis-placement loop of `_Sequence_HDF5._get_frame`:

    for i in range(frame.ndim):
        idx = np.argmin(swapper[i:]) + i
        if idx != i:
            swapper[i], swapper[idx] = swapper[idx], swapper[i]
            frame.swapaxes(i, idx)

`frame.swapaxes(i, idx)` returns a new view and its result is never assigned,
so only the `swapper` list is permuted and the frame is returned with its
axes untouched; the discarded call is kept as a dead binding to mirror the
source line. -/
def swapLoop (i : ℕ) (swapper : List ℕ) (frame : NDArray) :
    ℕ → Except PyErr (List ℕ × NDArray)
  | 0 => Except.ok (swapper, frame)
  | k + 1 => do
      let m ← argminIdx (swapper.drop i)
      let idx := m + i
      if idx ≠ i then
        let swapper' := listSwap 0 swapper i idx
        let _discarded := swapaxes frame i idx
        swapLoop (i + 1) swapper' frame k
      else swapLoop (i + 1) swapper frame k

/-- The same loop with the one-line correction `frame = frame.swapaxes(i,
idx)`, i.e. with the swap actually applied to the frame.  This is the
behaviour the surrounding code (the `swapper` machinery) and the class
documentation intend; it is used only to exhibit the divergence of the source
from it. -/
def swapLoopApplied (i : ℕ) (swapper : List ℕ) (frame : NDArray) :
    ℕ → Except PyErr (List ℕ × NDArray)
  | 0 => Except.ok (swapper, frame)
  | k + 1 => do
      let m ← argminIdx (swapper.drop i)
      let idx := m + i
      if idx ≠ i then
        let swapper' := listSwap 0 swapper i idx
        swapLoopApplied (i + 1) swapper' (swapaxes frame i idx) k
      else swapLoopApplied (i + 1) swapper frame k

/-- Shared prefix of `_Sequence_HDF5._get_frame(t)`: build the `swapper`
position list from the dimension symbols that are present, fix the time axis
of the selection tuple to `t`, and cut the hyperslab.  Negative `find`
results for mandatory symbols index the lists from the end, exactly as
Python's negative indices do in the source's `swapper[self._Y_DIM] = 1`
etc. -/
def hdf5Hyperslab (s : HDF5Seq) (t : ℤ) : Except PyErr (List ℕ × NDArray) := do
  let rank := s.dataset.shape.length
  let tD := pyFindChar s.dim_order 't'
  let zD := pyFindChar s.dim_order 'z'
  let yD := pyFindChar s.dim_order 'y'
  let xD := pyFindChar s.dim_order 'x'
  let cD := pyFindChar s.dim_order 'c'
  let swapper0 : List (Option ℕ) := List.replicate rank Option.none
  let swapper1 ← if zD > -1 then pySet swapper0 zD (some 0) else Except.ok swapper0
  let swapper2 ← pySet swapper1 yD (some 1)
  let swapper3 ← pySet swapper2 xD (some 2)
  let swapper4 ← if cD > -1 then pySet swapper3 cD (some 3) else Except.ok swapper3
  let swapper := swapper4.filterMap (fun x => x)
  let slices0 : List PyIndex := List.replicate rank fullSlice
  let slices ← pySet slices0 tD (PyIndex.int t)
  let frame ← applyIndexArr s.dataset slices
  Except.ok (swapper, frame)

/-- `_Sequence_HDF5._get_frame(t)` as the source executes it: hyperslab, the
placement loop with the `swapaxes` result discarded, then `astype(float)`
(the identity on the model's exact values). -/
def hdf5GetFrame (s : HDF5Seq) (t : ℤ) : Except PyErr NDArray := do
  let (swapper, frame) ← hdf5Hyperslab s t
  let (_, frame') ← swapLoop 0 swapper frame frame.shape.length
  Except.ok frame'

/-- `_get_frame(t)` with the intended axis reordering applied (see
`swapLoopApplied`). -/
def hdf5GetFrameApplied (s : HDF5Seq) (t : ℤ) : Except PyErr NDArray := do
  let (swapper, frame) ← hdf5Hyperslab s t
  let (_, frame') ← swapLoopApplied 0 swapper frame frame.shape.length
  Except.ok frame'

/-! ### The `_fill_gaps` two-pass stream algorithm

Frames handed to `_fill_gaps` are, per its docstring, lists of per-channel
arrays; the elementwise float semantics makes the pixel layout irrelevant, so
a channel is modelled as a flat pixel list.  A pixel is `Option ℚ` with
`Option.none` for NaN. -/

/-- A pixel value: `Option.none` is NaN. -/
abbrev Px := Option ℚ

/-- A channel: a flat list of pixels. -/
abbrev Chan := List Px

/-- A frame: one channel list per channel. -/
abbrev GFrame := List Chan

/-- Per-channel shape of a frame. -/
def shapeOf (f : GFrame) : List ℕ := f.map List.length

/-- Keep the left pixel where it is finite, else take the right one.  This is
the elementwise content of both masked assignments in `_fill_gaps`
(`fobs_chan[isnan(fobs_chan)] = frame_chan[...]` reads it left-to-right,
`mr_chan[isfinite(fr_chan)] = fr_chan[...]` right-to-left). -/
def firstSome (a b : Px) : Px := if a.isSome then a else b

/-- Pass-1 step: `fobs_chan[np.isnan(fobs_chan)] = frame_chan[np.isnan(fobs_chan)]`
on each channel pair of `zip(frame, first_obs)`; channels of `first_obs`
beyond the zip are untouched. -/
def step1 (fobs frame : GFrame) : GFrame :=
  List.zipWith (fun fo f => List.zipWith firstSome fo f) fobs frame
    ++ fobs.drop frame.length

/-- The early-exit test `all(np.all(np.isfinite(chan)) for chan in first_obs)`. -/
def allFinite (f : GFrame) : Bool :=
  f.all (fun ch => ch.all (fun x => x.isSome))

/-- Pass 1 of `_fill_gaps`: fold the remaining frames of the first cursor
into the baseline, stopping early once the baseline is fully finite. -/
def pass1 : List GFrame → GFrame → GFrame
  | [], fobs => fobs
  | f :: rest, fobs =>
      let fobs' := step1 fobs f
      if allFinite fobs' then fobs' else pass1 rest fobs'

/-- IEEE addition on the NaN-or-rational model: NaN absorbs. -/
def fadd : Px → Px → Px
  | some a, some b => some (a + b)
  | _, _ => Option.none

/-- IEEE multiplication on the NaN-or-rational model: NaN absorbs (in
particular `0 * NaN = NaN`). -/
def fmul : Px → Px → Px
  | some a, some b => some (a * b)
  | _, _ => Option.none

/-- `np.nan_to_num` on one pixel: NaN becomes `0`. -/
def nanToNum (x : Px) : Px := some (x.getD 0)

/-- `np.isnan` on one pixel, as the 0/1 float factor it becomes in the
emission formula. -/
def isnanInd (x : Px) : Px := some (if x.isSome then 0 else 1)

/-- One emitted pixel: `np.nan_to_num(mr_ch) + np.isnan(mr_ch) * fo_ch`. -/
def emitPx (m f : Px) : Px := fadd (nanToNum m) (fmul (isnanInd m) f)

/-- One emitted frame: the emission formula over `zip(most_recent, first_obs)`. -/
def emitFrame (mr fo : GFrame) : GFrame :=
  List.zipWith (fun m f => List.zipWith emitPx m f) mr fo

/-- Pass-2 step: `mr_chan[np.isfinite(fr_chan)] = fr_chan[np.isfinite(fr_chan)]`
over `zip(frame, most_recent)`. -/
def step2 (frame mr : GFrame) : GFrame :=
  List.zipWith (fun f m => List.zipWith firstSome f m) frame mr
    ++ mr.drop frame.length

/-- Pass 2 of `_fill_gaps`: update the running most-recent observation with
each frame of the second cursor and emit. -/
def pass2 : List GFrame → GFrame → GFrame → List GFrame
  | [], _, _ => []
  | f :: rest, mr, fo =>
      let mr' := step2 f mr
      emitFrame mr' fo :: pass2 rest mr' fo

/-- `_fill_gaps(frame_iter1, frame_iter2)`, the two cursors given as the
frame lists they would yield.  An empty first cursor makes the initial
`next(frame_iter1)` raise `StopIteration`, which ends the generator with no
output.  `most_recent = [x * np.nan for x in first_obs]` is all-NaN of the
baseline's shape. -/
def fill_gaps (fs1 fs2 : List GFrame) : List GFrame :=
  match fs1 with
  | [] => []
  | f0 :: rest =>
      let fobs := pass1 rest f0
      let mr0 := fobs.map (fun ch => ch.map (fun _ => (Option.none : Px)))
      pass2 fs2 mr0 fobs

/-- The pass-1 baseline (`first_obs`) of `_fill_gaps` for a given first
cursor. -/
def gapsBaseline (fs1 : List GFrame) : GFrame :=
  match fs1 with
  | [] => []
  | f0 :: rest => pass1 rest f0

/-! ### `_resolve_paths` -/

/-- The file-system facts `_resolve_paths` consults: existence (`isfile`) and
file identity (`samefile` compares identities, not names). -/
structure FileSys where
  isfile : String → Bool
  fileId : String → ℕ

/-- The path-valued entries of a serialised dictionary: the directory-relative
path stored under `_relpath` and the absolute path stored under `_abspath`,
each optional. -/
structure PathDict where
  relpath : Option String
  abspath : Option String

/-- `os.path.join` for the model's already-normalised abstract paths;
`normcase(abspath(normpath(...)))` is the identity on them. -/
def joinPath (dir p : String) : String := dir ++ "/" ++ p

/-- The candidate absolute locations collected into the `paths` set: the
relative path joined against the save directory, and the stored absolute
path, deduplicated (set semantics). -/
def candidates (savedir : String) (d : PathDict) : List String :=
  match d.relpath, d.abspath with
  | some r, some a => if joinPath savedir r = a then [a] else [joinPath savedir r, a]
  | some r, Option.none => [joinPath savedir r]
  | Option.none, some a => [a]
  | Option.none, Option.none => []

/-- Python `list.pop()`: remove and return the last element; empty list raises
`IndexError` (`pop from empty list`). -/
def popLastE : List String → Except PyErr (String × List String)
  | [] => Except.error PyErr.indexError
  | [x] => Except.ok (x, [])
  | x :: y :: xs => do
      let (z, r) ← popLastE (y :: xs)
      Except.ok (z, x :: r)

/-- The tail of `_resolve_paths` after filtering to existing files:

    if len(paths) != 1:
        testfile = paths.pop()
        if not all(samefile(testfile, p) for p in paths):
            raise Exception('Files have been moved. ...')
    d['path'] = paths.pop()
-/
def resolveCore (fs : FileSys) (existing : List String) : Except PyErr String :=
  if existing.length = 1 then do
    let (p, _) ← popLastE existing
    Except.ok p
  else do
    let (testfile, rest) ← popLastE existing
    if rest.all (fun p => fs.fileId testfile = fs.fileId p) then do
      let (p, _) ← popLastE rest
      Except.ok p
    else Except.error PyErr.movedError

/-- `_resolve_paths(d, savedir)`: collect the candidate locations, and when
there is at least one, filter to those that exist and resolve; with no stored
path at all the dictionary is left without a resolved path (`Option.none`
result). -/
def resolve_paths (fs : FileSys) (savedir : String) (d : PathDict) :
    Except PyErr (Option String) :=
  let paths := candidates savedir d
  if paths.isEmpty then Except.ok Option.none
  else (resolveCore fs (paths.filter fs.isfile)).map some

/-! ### Cursor model for `_IndexableSequence.__iter__`

`__iter__` is `for t in xrange(len(self)): yield self._get_frame(t)`: a fresh
generator with its own counter over a read-only sequence.  A cursor is its
suspended state (the counter); stepping it reads the sequence and advances
only that counter. -/

/-- A random-access sequence presented by its length and `_get_frame`. -/
structure BaseSeq where
  len : ℕ
  frame : ℕ → NDArray

/-- A cursor's suspended state: the loop counter of the generator. -/
def cstep (S : BaseSeq) (p : ℕ) : Option (NDArray × ℕ) :=
  if p < S.len then some (S.frame p, p + 1) else Option.none

/-- Run two independently obtained cursors over the same sequence under an
arbitrary interleaving schedule (`true` steps the first cursor, `false` the
second), collecting what each yields.  A step of an exhausted cursor yields
nothing. -/
def runSched (S : BaseSeq) : List Bool → ℕ → ℕ → List NDArray × List NDArray
  | [], _, _ => ([], [])
  | true :: sch, p1, p2 =>
      match cstep S p1 with
      | some (f, p1') =>
          let r := runSched S sch p1' p2
          (f :: r.1, r.2)
      | Option.none => runSched S sch p1 p2
  | false :: sch, p1, p2 =>
      match cstep S p2 with
      | some (f, p2') =>
          let r := runSched S sch p1 p2'
          (r.1, f :: r.2)
      | Option.none => runSched S sch p1 p2

/-- The full frame sequence of a random-access sequence, as one exhausted
cursor yields it. -/
def fullFrames (S : BaseSeq) : List NDArray := (List.range S.len).map S.frame

/-! ### Concrete instances used by individual claims -/

/-- A 'txy' dataset of shape (1, 2, 3) whose entry at (t, x, y) is `10*x + y`,
so every entry identifies its coordinates. -/
def c1ds : NDArray := ⟨[1, 2, 3], fun v => ((v.getD 1 0 * 10 + v.getD 2 0 : ℕ) : ℚ)⟩

/-- The `_Sequence_HDF5` over `c1ds` with DimensionOrder 'txy'. -/
def c1seq : HDF5Seq := ⟨c1ds, "txy".toList⟩

/-- A 20-frame random-access base sequence with 4-axis frames. -/
def c3base : SeqObj := SeqObj.leaf 20 (fun t => ⟨[1, 2, 3, 1], fun _ => (t : ℚ)⟩)

/-- A displacement array of shape (40, 2) = (20 frames × 2 rows, 2), whose
entry at flat row `r` is `r`, so every row identifies itself. -/
def c3disp : NDArray := ⟨[40, 2], fun v => ((v.getD 0 0 : ℕ) : ℚ)⟩

/-- A 2-frame, 1-channel, 1-pixel stream whose only pixel is NaN at every
timepoint. -/
def nanStream : List GFrame := [[[Option.none]], [[Option.none]]]

/-- A file system on which no path exists. -/
def noFileSys : FileSys := ⟨fun _ => false, fun _ => 0⟩

/-- A serialised dictionary storing both a relative and an absolute path. -/
def bothPathsDict : PathDict := ⟨some "r", some "/a"⟩

/-! ### Claim theorems: concrete code-bug evaluations and counterexamples -/

/-- C1: the claim states that `_Sequence_HDF5._get_frame(t)` returns the
time-`t` hyperslab with its remaining axes reordered into canonical
(plane, row, column, channel) order — for DimensionOrder 'txy', permuted into
(row, column) order.  The source contradicts this: `frame.swapaxes(i, idx)`
returns a view that is never assigned, so only the `swapper` bookkeeping list
is permuted and the frame keeps its on-disk axis order.  On the 'txy' dataset
`c1ds` of shape (1, 2, 3), `_get_frame(0)` keeps shape (2, 3) — (column, row),
not the claimed (row, column) = (3, 2) — and its entry at [0, 1] is the
dataset entry at (t=0, x=0, y=1), i.e. the transpose of the claimed layout;
the one-line corrected variant `hdf5GetFrameApplied` produces exactly the
claimed (3, 2) reordering on the same input. -/
theorem hdf5_get_frame_swap_discarded :
    mkSequenceHDF5 c1ds ("txy".toList) = Except.ok c1seq
  ∧ (hdf5GetFrame c1seq 0).toOption.map NDArray.shape = some [2, 3]
  ∧ (hdf5GetFrame c1seq 0).toOption.map (fun a => a.data [0, 1]) = some 1
  ∧ c1ds.data [0, 0, 1] = 1
  ∧ (hdf5GetFrameApplied c1seq 0).toOption.map NDArray.shape = some [3, 2]
  ∧ (hdf5GetFrameApplied c1seq 0).toOption.map (fun a => a.data [0, 1]) = some 10
  ∧ ([2, 3] : List ℕ) ≠ [3, 2] :=
  ⟨rfl, rfl, by decide, by decide, rfl, by decide, by decide⟩

/-- C3: the claim states that slicing the time axis of a
`_MotionCorrectedSequence` (20-frame base, displacements of shape
(20·rows, 2)) to [5:10] yields a `_MotionCorrectedSequence` whose
displacement array is the frames-5..9 row-block (flat rows 5·rows .. 10·rows−1)
over the base sliced to the same range.  The source contradicts this twice on
the concrete instance with rows = 2: the pushdown `self.displacements[times]`
takes flat rows 5..9 (first entry 5) rather than the row-block starting at
flat row 10, and the re-indexing step `_MotionCorrectedSequence(...)[
(None,) + indices[1:]]` then crashes with `TypeError`, because
`_IndexedSequence.__init__` evaluates `range(base_len)[None]`.  So the whole
slicing call raises `TypeError` instead of returning a sequence. -/
theorem mcs_time_slice_type_error :
    getitem 5 (SeqObj.motion c3base c3disp [1, 2, 3])
      (PyArg.tuple [PyIndex.slice (some 5) (some 10)]) = Except.error PyErr.typeError
  ∧ (applyIndexArr c3disp [PyIndex.slice (some 5) (some 10)]).toOption.map NDArray.shape
      = some [5, 2]
  ∧ (applyIndexArr c3disp [PyIndex.slice (some 5) (some 10)]).toOption.map
      (fun a => a.data [0, 0]) = some 5
  ∧ c3disp.data [10, 0] = 10
  ∧ (5 : ℚ) ≠ 10 :=
  ⟨rfl, rfl, by decide, by decide, by decide⟩

/-- C4: the claim states that slicing a `_MotionCorrectedSequence` with a
5-selector tuple whose time selector is the full range and whose channel
selector is restrictive succeeds with a channel pushdown.  The source
contradicts it: in the `len(indices) == 5` branch it evaluates
`chans = indices[5]`, which on a 5-tuple raises `IndexError` before any
pushdown, for every base, displacement array and channel selector. -/
theorem mcs_channel_slice_index_error (fuel : ℕ) (b : SeqObj) (disp : NDArray)
    (fshape : List ℕ) (ch : PyIndex) :
    getitem (fuel + 1) (SeqObj.motion b disp fshape)
      (PyArg.tuple [fullSlice, fullSlice, fullSlice, fullSlice, ch])
      = Except.error PyErr.indexError := rfl

/-- C10: `_MotionCorrectedSequence.__getitem__` applies `len()` to its raw
argument before normalising it into a tuple, so a bare integer or bare slice
argument raises `TypeError` (`len()` of an `int`/`slice`), while the generic
`Sequence.__getitem__` used by every other sequence type accepts a bare
slice. -/
theorem mcs_getitem_rejects_bare_selector (fuel : ℕ) (b : SeqObj) (disp : NDArray)
    (fshape : List ℕ) (i : ℤ) (a c : Option ℤ) :
    getitem (fuel + 1) (SeqObj.motion b disp fshape) (PyArg.scalar (PyIndex.int i))
      = Except.error PyErr.typeError
  ∧ getitem (fuel + 1) (SeqObj.motion b disp fshape) (PyArg.scalar (PyIndex.slice a c))
      = Except.error PyErr.typeError
  ∧ ∀ (n : ℕ) (fr : ℕ → NDArray), ∃ r,
      getitem (fuel + 1) (SeqObj.leaf n fr) (PyArg.scalar (PyIndex.slice a c))
        = Except.ok r :=
  ⟨rfl, rfl, fun n fr => ⟨_, rfl⟩⟩

/-- C2 counterexample: on the stream whose single pixel is NaN at every
timepoint in both passes, `_fill_gaps` emits NaN — not the claimed finite
zero — in every output frame: the emission formula multiplies the NaN
baseline by the NaN-mask, and both `0 * NaN` and `1 * NaN` are NaN. -/
theorem fill_gaps_nan_counterexample :
    fill_gaps nanStream nanStream = [[[Option.none]], [[Option.none]]]
  ∧ (Option.none : Px) ≠ some 0 :=
  ⟨by decide, by decide⟩

/-- C8 counterexample: when neither stored candidate exists on disk,
`_resolve_paths` does not fail with a missing-file error; it crashes with
`IndexError` (`pop from empty list`), because `len(paths) != 1` leads
straight to `paths.pop()` on the empty filtered list. -/
theorem resolve_paths_none_counterexample :
    resolve_paths noFileSys "/s" bothPathsDict = Except.error PyErr.indexError
  ∧ resolve_paths noFileSys "/s" bothPathsDict ≠ Except.error PyErr.missingFileError :=
  ⟨rfl, fun h => PyErr.noConfusion (Except.error.inj h)⟩

/-! ### C9: cursor independence for `_IndexableSequence.__iter__` -/

/-- The frames a cursor whose counter stands at `p` will still yield. -/
def framesFrom (S : BaseSeq) (p : ℕ) : List NDArray :=
  (List.range' p (S.len - p)).map S.frame

lemma framesFrom_zero (S : BaseSeq) : framesFrom S 0 = fullFrames S := by
  simp [framesFrom, fullFrames, List.range_eq_range']

lemma framesFrom_step (S : BaseSeq) (p : ℕ) (hp : p < S.len) :
    framesFrom S p = S.frame p :: framesFrom S (p + 1) := by
  have h : S.len - p = (S.len - (p + 1)) + 1 := by omega
  rw [framesFrom, h, List.range'_succ, List.map_cons]
  rfl

lemma framesFrom_exhausted (S : BaseSeq) (p : ℕ) (hp : ¬ p < S.len) :
    framesFrom S p = [] := by
  have h : S.len - p = 0 := by omega
  simp [framesFrom, h]

lemma runSched_eq (S : BaseSeq) : ∀ (sch : List Bool) (p1 p2 : ℕ),
    S.len - p1 ≤ sch.count true → S.len - p2 ≤ sch.count false →
    runSched S sch p1 p2 = (framesFrom S p1, framesFrom S p2)
  | [], p1, p2, h1, h2 => by
      have e1 : framesFrom S p1 = [] := framesFrom_exhausted S p1 (by simp at h1; omega)
      have e2 : framesFrom S p2 = [] := framesFrom_exhausted S p2 (by simp at h2; omega)
      simp [runSched, e1, e2]
  | true :: sch, p1, p2, h1, h2 => by
      rw [List.count_cons_self] at h1
      rw [List.count_cons_of_ne (by simp)] at h2
      by_cases hp : p1 < S.len
      · have ih := runSched_eq S sch (p1 + 1) p2 (by omega) h2
        simp only [runSched, cstep, hp, if_pos, ih]
        rw [framesFrom_step S p1 hp]
      · have h1' : S.len - p1 ≤ sch.count true := by omega
        have ih := runSched_eq S sch p1 p2 h1' h2
        simp only [runSched, cstep, hp, if_neg, ih, not_false_eq_true]
  | false :: sch, p1, p2, h1, h2 => by
      rw [List.count_cons_self] at h2
      rw [List.count_cons_of_ne (by simp)] at h1
      by_cases hp : p2 < S.len
      · have ih := runSched_eq S sch p1 (p2 + 1) h1 (by omega)
        simp only [runSched, cstep, hp, if_pos, ih]
        rw [framesFrom_step S p2 hp]
      · have h2' : S.len - p2 ≤ sch.count false := by omega
        have ih := runSched_eq S sch p1 p2 h1 h2'
        simp only [runSched, cstep, hp, if_neg, ih, not_false_eq_true]

/-- C9: two cursors obtained independently from the same random-access
sequence each yield the complete frame sequence and the two yields are
frame-for-frame identical, under every interleaving of their steps:
`_IndexableSequence.__iter__` runs a private counter over the read-only
sequence, so obtaining or advancing one cursor has no effect on the sequence
or on the other traversal. -/
theorem two_cursors_full_and_identical (S : BaseSeq) (sch : List Bool)
    (h1 : S.len ≤ sch.count true) (h2 : S.len ≤ sch.count false) :
    runSched S sch 0 0 = (fullFrames S, fullFrames S) := by
  have h := runSched_eq S sch 0 0 (by omega) (by omega)
  rwa [framesFrom_zero] at h

/-- A concrete 2-frame sequence for the cursor-independence witness. -/
def twoCursorSeq : BaseSeq := ⟨2, fun t => ⟨[1], fun _ => (t : ℚ)⟩⟩

/-- Witness for C9 at a concrete sequence and interleaving. -/
theorem two_cursors_full_and_identical_witness :
    runSched twoCursorSeq [true, false, true, false] 0 0
      = (fullFrames twoCursorSeq, fullFrames twoCursorSeq) :=
  two_cursors_full_and_identical twoCursorSeq [true, false, true, false]
    (by decide) (by decide)

/-! ### C5 and C6: the `_IndexedSequence` indexing algebra -/

/-- Selector kind test: a bare integer or a slice (the selector kinds of an
IndexSpec). -/
def isIntOrSlice : PyIndex → Bool
  | PyIndex.int _ => true
  | PyIndex.slice _ _ => true
  | PyIndex.none => false

/-- Selector kind test: a slice. -/
def isSliceIdx : PyIndex → Bool
  | PyIndex.slice _ _ => true
  | _ => false

lemma normIndex_slice (s : PyIndex) (h : isIntOrSlice s = true) :
    isSliceIdx (normIndex s) = true := by
  cases s <;> simp_all [normIndex, isIntOrSlice, isSliceIdx]

lemma range'_getD (n : ℕ) : ∀ (s i : ℕ), i < n → (List.range' s n).getD i 0 = s + i := by
  induction n with
  | zero => intro s i h; omega
  | succ n ih =>
      intro s i h
      rw [List.range'_succ]
      cases i with
      | zero => simp
      | succ i =>
          rw [List.getD_cons_succ, ih (s + 1) i (by omega)]
          omega

lemma sliceIndices_full (d : ℕ) : sliceIndices d Option.none Option.none = List.range' 0 d := by
  simp [sliceIndices]

/-- A tuple of full slices of the array's rank indexes to an equal array. -/
lemma applySels_fulls : ∀ ds : List ℕ, ∃ tf,
    applySels (List.replicate ds.length fullSlice) ds = Except.ok (ds, tf)
      ∧ ∀ v, coordOK ds v → tf v = v
  | [] => ⟨fun v => v, rfl, fun v _ => rfl⟩
  | d :: ds => by
      obtain ⟨tf, heq, hid⟩ := applySels_fulls ds
      simp only [fullSlice] at heq
      refine ⟨fun v => (sliceIndices d Option.none Option.none).getD (v.headD 0) 0
        :: tf (v.drop 1), ?_, ?_⟩
      · have hd : (sliceIndices d Option.none Option.none).length = d := by
          rw [sliceIndices_full]; exact List.length_range' 0 1 d
        simp only [List.length_cons, List.replicate_succ, fullSlice, applySels, heq, hd]
        rfl
      · intro v hv
        cases hv with
        | @cons a b l₁ l₂ ha hv' =>
            simp only [List.headD_cons, List.drop_one, List.tail_cons]
            rw [sliceIndices_full, range'_getD d 0 a ha, hid l₁ hv']
            simp

/-- Full-slice indexing at the array's rank returns an equal array. -/
lemma applyIndexArr_fulls (a : NDArray) (n : ℕ) (h : a.shape.length = n) :
    ∃ g, applyIndexArr a (List.replicate n fullSlice) = Except.ok g ∧ NDEquiv g a := by
  subst h
  obtain ⟨tf, heq, hid⟩ := applySels_fulls a.shape
  refine ⟨⟨a.shape, fun v => a.data (tf v)⟩, ?_, rfl, ?_⟩
  · simp [applyIndexArr, heq, Except.map]
  · intro v hv
    simp only
    rw [hid v hv]

/-- A tuple of slices no longer than the rank always succeeds and preserves
the rank. -/
lemma applySels_slices : ∀ (sels : List PyIndex), (∀ s ∈ sels, isSliceIdx s = true) →
    ∀ (ds : List ℕ), sels.length ≤ ds.length →
    ∃ sh tf, applySels sels ds = Except.ok (sh, tf) ∧ sh.length = ds.length
  | [], _, ds, _ => ⟨ds, fun v => v, rfl, rfl⟩
  | s :: sels, hs, [], hle => by simp at hle
  | PyIndex.int i :: sels, hs, d :: ds, hle => by
      have := hs (PyIndex.int i) (by simp)
      simp [isSliceIdx] at this
  | PyIndex.none :: sels, hs, d :: ds, hle => by
      have := hs PyIndex.none (by simp)
      simp [isSliceIdx] at this
  | PyIndex.slice a b :: sels, hs, d :: ds, hle => by
      obtain ⟨sh, tf, heq, hlen⟩ := applySels_slices sels
        (fun s hmem => hs s (by simp [hmem])) ds (by simpa using hle)
      refine ⟨(sliceIndices d a b).length :: sh,
        fun v => (sliceIndices d a b).getD (v.headD 0) 0 :: tf (v.drop 1), ?_, ?_⟩
      · simp [applySels, heq, Except.bind, bind, Except.pure, pure]
      · simp [hlen]

/-- Slice-only indexing within rank preserves the rank of an array. -/
lemma applyIndexArr_slices (a : NDArray) (sels : List PyIndex)
    (hs : ∀ s ∈ sels, isSliceIdx s = true) (hle : sels.length ≤ a.shape.length) :
    ∃ g, applyIndexArr a sels = Except.ok g ∧ g.shape.length = a.shape.length := by
  obtain ⟨sh, tf, heq, hlen⟩ := applySels_slices sels hs a.shape hle
  exact ⟨⟨sh, fun v => a.data (tf v)⟩, by simp [applyIndexArr, heq, Except.map], hlen⟩

lemma iterIdxFrames_ok (frame : ℕ → NDArray) (sels : List PyIndex)
    (P : NDArray → Prop) :
    ∀ ts : List ℕ, (∀ t ∈ ts, ∃ g, applyIndexArr (frame t) sels = Except.ok g ∧ P g) →
    ∃ l, iterIdxFrames frame sels ts = Except.ok l ∧ ∀ g ∈ l, P g
  | [], _ => ⟨[], rfl, by simp⟩
  | t :: ts, h => by
      obtain ⟨g, hg, hP⟩ := h t (by simp)
      obtain ⟨l, hl, hPl⟩ := iterIdxFrames_ok frame sels P ts
        (fun u hu => h u (by simp [hu]))
      refine ⟨g :: l, ?_, ?_⟩
      · simp [iterIdxFrames, hg, hl, Except.bind, bind, Except.pure, pure]
      · intro x hx
        rcases List.mem_cons.mp hx with h' | h'
        · exact h' ▸ hP
        · exact hPl x h'

/-- C5: `_IndexedSequence.__init__` rewrites every bare-integer selector into
the single-element slice `slice(i, i+1)`, and consequently every frame the
sequence yields has exactly the rank of the base's frames — indexing never
collapses an axis, for every base and every IndexSpec built from integer and
slice selectors of length at most rank + 1. -/
theorem indexed_sequence_preserves_rank (baseLen : ℕ) (frame : ℕ → NDArray)
    (spec : List PyIndex) (fshape : List ℕ)
    (hne : spec ≠ [])
    (hkinds : ∀ s ∈ spec, isIntOrSlice s = true)
    (hlen : spec.length ≤ fshape.length + 1)
    (hframe : ∀ t, (frame t).shape = fshape) :
    ∃ iseq, mkIdx baseLen (PyArg.tuple spec) = Except.ok iseq
      ∧ iseq.indices = spec.map normIndex
      ∧ (∀ k i, spec.get? k = some (PyIndex.int i) →
          iseq.indices.get? k = some (PyIndex.slice (some i) (some (i + 1))))
      ∧ ∃ frames, iterIdxSeq frame iseq = Except.ok frames
          ∧ ∀ g ∈ frames, g.shape.length = fshape.length := by
  obtain ⟨s0, spec', rfl⟩ : ∃ s0 spec', spec = s0 :: spec' := by
    cases spec with
    | nil => exact absurd rfl hne
    | cons a l => exact ⟨a, l, rfl⟩
  have hs0 : isSliceIdx (normIndex s0) = true :=
    normIndex_slice s0 (hkinds s0 (by simp))
  obtain ⟨a, b, hab⟩ : ∃ a b, normIndex s0 = PyIndex.slice a b := by
    cases h : normIndex s0 <;> simp_all [isSliceIdx]
  set norm := (s0 :: spec').map normIndex with hnorm
  set ts := (sliceIndices baseLen a b).map (fun i => (List.range baseLen).getD i 0)
    with hts
  have hmk : mkIdx baseLen (PyArg.tuple (s0 :: spec')) = Except.ok ⟨baseLen, norm, ts⟩ := by
    simp [mkIdx, argToTuple, hnorm, hab, pyListSlice, Except.map, hts]
  refine ⟨⟨baseLen, norm, ts⟩, hmk, rfl, ?_, ?_⟩
  · intro k i hk
    simp only [hnorm, List.get?_map, hk, Option.map_some]
    rfl
  · have htail : ∀ s ∈ norm.tail, isSliceIdx s = true := by
      intro s hmem
      simp only [hnorm, List.map_cons, List.tail_cons] at hmem
      obtain ⟨u, hu, rfl⟩ := List.mem_map.mp hmem
      exact normIndex_slice u (hkinds u (by simp [hu]))
    have hcount : norm.tail.length ≤ fshape.length := by
      simp only [hnorm, List.map_cons, List.tail_cons, List.length_map]
      simp only [List.length_cons] at hlen
      omega
    apply iterIdxFrames_ok
    intro t _
    have := applyIndexArr_slices (frame t) norm.tail htail
      (by rw [hframe t]; exact hcount)
    obtain ⟨g, hg, hrank⟩ := this
    exact ⟨g, hg, by rw [hrank, hframe t]⟩

/-- Base frame maker for the C5 witness: 3-frame base with 2-axis frames. -/
def rankWitnessFrame : ℕ → NDArray := fun _ => ⟨[2, 3], fun _ => 0⟩

/-- Witness for C5 at a concrete base and IndexSpec containing a bare-integer
selector on a non-time axis. -/
theorem indexed_sequence_preserves_rank_witness :
    ∃ iseq, mkIdx 3 (PyArg.tuple [fullSlice, PyIndex.int 1, fullSlice])
        = Except.ok iseq
      ∧ iseq.indices = [fullSlice, PyIndex.int 1, fullSlice].map normIndex
      ∧ (∀ k i, [fullSlice, PyIndex.int 1, fullSlice].get? k = some (PyIndex.int i) →
          iseq.indices.get? k = some (PyIndex.slice (some i) (some (i + 1))))
      ∧ ∃ frames, iterIdxSeq rankWitnessFrame iseq = Except.ok frames
          ∧ ∀ g ∈ frames, g.shape.length = ([2, 3] : List ℕ).length :=
  indexed_sequence_preserves_rank 3 rankWitnessFrame
    [fullSlice, PyIndex.int 1, fullSlice] [2, 3]
    (by decide) (by decide) (by decide) (fun _ => rfl)

/-- The C6 slice argument: time selector 2:5, all other axes full. -/
def timeSliceArg : PyArg :=
  PyArg.tuple [PyIndex.slice (some 2) (some 5), fullSlice, fullSlice, fullSlice, fullSlice]

/-- C6: for every random-access base of length 10 with 4-axis frames, slicing
time to 2:5 (all other axes full) yields an `_IndexedSequence` of length 3
with selected times [2, 3, 4], whose frames 0, 1, 2 equal base frames 2, 3, 4
in order — both through its cursor and through `_get_frame` with the local
index translated through the selected-time-index list. -/
theorem indexed_sequence_time_slice_scenario (frame : ℕ → NDArray) (fshape : List ℕ)
    (h4 : fshape.length = 4) (hframe : ∀ t, (frame t).shape = fshape) :
    ∃ iseq, mkIdx 10 timeSliceArg = Except.ok iseq
      ∧ idxLen iseq = 3
      ∧ iseq.times = [2, 3, 4]
      ∧ (∃ l, iterIdxSeq frame iseq = Except.ok l ∧ l.length = 3
           ∧ ∀ k : ℕ, k < 3 → ∃ g, l.get? k = some g ∧ NDEquiv g (frame (2 + k)))
      ∧ ∀ k : ℕ, k < 3 → ∃ g, idxGetFrame frame iseq (k : ℤ) = Except.ok g
          ∧ NDEquiv g (frame (2 + k)) := by
  obtain ⟨g2, hg2, he2⟩ := applyIndexArr_fulls (frame 2) 4 (by rw [hframe 2, h4])
  obtain ⟨g3, hg3, he3⟩ := applyIndexArr_fulls (frame 3) 4 (by rw [hframe 3, h4])
  obtain ⟨g4, hg4, he4⟩ := applyIndexArr_fulls (frame 4) 4 (by rw [hframe 4, h4])
  have hg2' : applyIndexArr (frame 2) [fullSlice, fullSlice, fullSlice, fullSlice]
      = Except.ok g2 := hg2
  have hg3' : applyIndexArr (frame 3) [fullSlice, fullSlice, fullSlice, fullSlice]
      = Except.ok g3 := hg3
  have hg4' : applyIndexArr (frame 4) [fullSlice, fullSlice, fullSlice, fullSlice]
      = Except.ok g4 := hg4
  refine ⟨⟨10, [PyIndex.slice (some 2) (some 5), fullSlice, fullSlice, fullSlice,
      fullSlice], [2, 3, 4]⟩, rfl, rfl, rfl, ⟨[g2, g3, g4], ?_, rfl, ?_⟩, ?_⟩
  · show iterIdxFrames frame [fullSlice, fullSlice, fullSlice, fullSlice] [2, 3, 4]
      = Except.ok [g2, g3, g4]
    simp only [iterIdxFrames, hg2', hg3', hg4']
    rfl
  · intro k hk
    interval_cases k
    · exact ⟨g2, rfl, he2⟩
    · exact ⟨g3, rfl, he3⟩
    · exact ⟨g4, rfl, he4⟩
  · intro k hk
    interval_cases k
    · refine ⟨g2, ?_, he2⟩
      show applyIndexArr (frame 2) [fullSlice, fullSlice, fullSlice, fullSlice]
        = Except.ok g2
      exact hg2'
    · refine ⟨g3, ?_, he3⟩
      show applyIndexArr (frame 3) [fullSlice, fullSlice, fullSlice, fullSlice]
        = Except.ok g3
      exact hg3'
    · refine ⟨g4, ?_, he4⟩
      show applyIndexArr (frame 4) [fullSlice, fullSlice, fullSlice, fullSlice]
        = Except.ok g4
      exact hg4'

/-- Base frame maker for the C6 witness. -/
def sliceWitnessFrame : ℕ → NDArray := fun t => ⟨[1, 1, 1, 1], fun _ => (t : ℚ)⟩

/-- Witness for C6 at a concrete length-10 base. -/
theorem indexed_sequence_time_slice_scenario_witness :
    ∃ iseq, mkIdx 10 timeSliceArg = Except.ok iseq
      ∧ idxLen iseq = 3
      ∧ iseq.times = [2, 3, 4]
      ∧ (∃ l, iterIdxSeq sliceWitnessFrame iseq = Except.ok l ∧ l.length = 3
           ∧ ∀ k : ℕ, k < 3 → ∃ g, l.get? k = some g
               ∧ NDEquiv g (sliceWitnessFrame (2 + k)))
      ∧ ∀ k : ℕ, k < 3 → ∃ g, idxGetFrame sliceWitnessFrame iseq (k : ℤ) = Except.ok g
          ∧ NDEquiv g (sliceWitnessFrame (2 + k)) :=
  indexed_sequence_time_slice_scenario sliceWitnessFrame [1, 1, 1, 1] rfl (fun _ => rfl)

/-! ### C7 and C2: the gap filler -/

/-- Pixel accessor into a frame; out-of-range reads are NaN. -/
def pget (f : GFrame) (c p : ℕ) : Px := (f.getD c []).getD p Option.none

/-- The most recent finite value of a pixel history (scanned left to right),
NaN when the history holds none. -/
def lastFinite (l : List Px) : Px :=
  l.foldl (fun acc x => if x.isSome then x else acc) Option.none

/-- The state of `most_recent` after pass 2 has consumed the given frames. -/
def mostRecentAfter (fs : List GFrame) (mr : GFrame) : GFrame :=
  fs.foldl (fun m f => step2 f m) mr

lemma getD_zipWith {α β γ : Type} (g : α → β → γ) :
    ∀ (l1 : List α) (l2 : List β), l1.length = l2.length →
    ∀ (i : ℕ) (d1 : α) (d2 : β) (dg : γ), i < l1.length →
    (List.zipWith g l1 l2).getD i dg = g (l1.getD i d1) (l2.getD i d2)
  | [], l2, _, i, _, _, _, hi => absurd hi (by simp)
  | a :: l1, [], h, i, _, _, _, _ => by simp at h
  | a :: l1, b :: l2, h, 0, d1, d2, dg, _ => by simp
  | a :: l1, b :: l2, h, i + 1, d1, d2, dg, hi => by
      simp only [List.zipWith_cons_cons, List.getD_cons_succ]
      exact getD_zipWith g l1 l2 (by simpa using h) i d1 d2 dg (by simpa using hi)

lemma shapeOf_length {A B : GFrame} (h : shapeOf A = shapeOf B) : A.length = B.length := by
  have := congrArg List.length h
  simpa [shapeOf] using this

lemma shapeOf_cons {a b : Chan} {A B : GFrame}
    (h : shapeOf (a :: A) = shapeOf (b :: B)) :
    a.length = b.length ∧ shapeOf A = shapeOf B := by
  simpa [shapeOf] using h

/-- Pixel view of a channelwise-zipped frame pair of equal shape, for any
pixel combinator that maps NaN-NaN to NaN. -/
lemma pget_zipzip (F : Px → Px → Px) (hF : F Option.none Option.none = Option.none) :
    ∀ (A B : GFrame), shapeOf A = shapeOf B → ∀ (c p : ℕ),
    pget (List.zipWith (fun x y => List.zipWith F x y) A B) c p
      = F (pget A c p) (pget B c p)
  | [], B, h, c, p => by
      have hB : B = [] := by simpa [shapeOf, List.map_eq_nil_iff] using h.symm
      subst hB
      simp [pget, hF]
  | a :: A, [], h, c, p => by simp [shapeOf] at h
  | a :: A, b :: B, h, 0, p => by
      obtain ⟨h1, h2⟩ := shapeOf_cons h
      by_cases hp : p < a.length
      · simpa [pget] using getD_zipWith F a b h1 p Option.none Option.none Option.none hp
      · have ha : a.getD p Option.none = Option.none :=
          List.getD_eq_default a Option.none (by omega)
        have hb : b.getD p Option.none = Option.none :=
          List.getD_eq_default b Option.none (by omega)
        have hz : (List.zipWith F a b).getD p Option.none = Option.none :=
          List.getD_eq_default _ Option.none (by simp [List.length_zipWith]; omega)
        simp only [pget, List.zipWith_cons_cons, List.getD_cons_zero]
        rw [ha, hb, hz, hF]
  | a :: A, b :: B, h, c + 1, p => by
      obtain ⟨h1, h2⟩ := shapeOf_cons h
      simpa [pget] using pget_zipzip F hF A B h2 c p

lemma shapeOf_zipzip (F : Px → Px → Px) :
    ∀ (A B : GFrame), shapeOf A = shapeOf B →
    shapeOf (List.zipWith (fun x y => List.zipWith F x y) A B) = shapeOf A
  | [], B, _ => by simp [shapeOf]
  | a :: A, [], h => by simp [shapeOf] at h
  | a :: A, b :: B, h => by
      obtain ⟨h1, h2⟩ := shapeOf_cons h
      have ih := shapeOf_zipzip F A B h2
      simp only [List.zipWith_cons_cons, shapeOf, List.map_cons, List.cons.injEq]
      constructor
      · simp [List.length_zipWith, h1]
      · simpa [shapeOf] using ih

lemma step2_eq_zip (f mr : GFrame) (h : shapeOf f = shapeOf mr) :
    step2 f mr = List.zipWith (fun x y => List.zipWith firstSome x y) f mr := by
  rw [step2, shapeOf_length h, List.drop_length, List.append_nil]

lemma step1_eq_zip (fobs f : GFrame) (h : shapeOf fobs = shapeOf f) :
    step1 fobs f = List.zipWith (fun x y => List.zipWith firstSome x y) fobs f := by
  rw [step1, ← shapeOf_length h, List.drop_length, List.append_nil]

lemma pget_step2 (f mr : GFrame) (h : shapeOf f = shapeOf mr) (c p : ℕ) :
    pget (step2 f mr) c p = firstSome (pget f c p) (pget mr c p) := by
  rw [step2_eq_zip f mr h]
  exact pget_zipzip firstSome rfl f mr h c p

lemma shapeOf_step2 (f mr : GFrame) (sh : List ℕ)
    (hf : shapeOf f = sh) (hm : shapeOf mr = sh) : shapeOf (step2 f mr) = sh := by
  rw [step2_eq_zip f mr (hf.trans hm.symm), shapeOf_zipzip firstSome f mr (hf.trans hm.symm), hf]

lemma shapeOf_step1 (fobs f : GFrame) (sh : List ℕ)
    (ho : shapeOf fobs = sh) (hf : shapeOf f = sh) : shapeOf (step1 fobs f) = sh := by
  rw [step1_eq_zip fobs f (ho.trans hf.symm),
    shapeOf_zipzip firstSome fobs f (ho.trans hf.symm), ho]

lemma shapeOf_pass1 : ∀ (fs : List GFrame) (fobs : GFrame) (sh : List ℕ),
    (∀ f ∈ fs, shapeOf f = sh) → shapeOf fobs = sh → shapeOf (pass1 fs fobs) = sh
  | [], fobs, sh, _, ho => ho
  | f :: rest, fobs, sh, hfs, ho => by
      have h1 : shapeOf (step1 fobs f) = sh := shapeOf_step1 fobs f sh ho (hfs f (by simp))
      rw [pass1]
      split
      · exact h1
      · exact shapeOf_pass1 rest (step1 fobs f) sh (fun g hg => hfs g (by simp [hg])) h1

lemma shapeOf_allNoneMap (f : GFrame) :
    shapeOf (f.map (fun ch => ch.map (fun _ => (Option.none : Px)))) = shapeOf f := by
  simp [shapeOf, List.map_map, Function.comp]

lemma pget_allNoneMap (f : GFrame) (c p : ℕ) :
    pget (f.map (fun ch => ch.map (fun _ => (Option.none : Px)))) c p = Option.none := by
  have h1 : (f.map (fun ch => ch.map (fun _ => (Option.none : Px)))).getD c []
      = (f.getD c []).map (fun _ => (Option.none : Px)) :=
    List.getD_map f [] (fun ch => ch.map (fun _ => (Option.none : Px)))
  have h2 : ((f.getD c []).map (fun _ => (Option.none : Px))).getD p Option.none
      = Option.none :=
    List.getD_map (f.getD c []) Option.none (fun _ => (Option.none : Px))
  show ((f.map (fun ch => ch.map (fun _ => (Option.none : Px)))).getD c []).getD p
      Option.none = Option.none
  rw [h1, h2]

lemma shapeOf_mostRecentAfter : ∀ (fs : List GFrame) (mr : GFrame) (sh : List ℕ),
    (∀ f ∈ fs, shapeOf f = sh) → shapeOf mr = sh → shapeOf (mostRecentAfter fs mr) = sh
  | [], _, _, _, hm => hm
  | f :: rest, mr, sh, hfs, hm =>
      shapeOf_mostRecentAfter rest (step2 f mr) sh (fun g hg => hfs g (by simp [hg]))
        (shapeOf_step2 f mr sh (hfs f (by simp)) hm)

lemma pget_mostRecentAfter : ∀ (fs : List GFrame) (mr : GFrame) (sh : List ℕ),
    (∀ f ∈ fs, shapeOf f = sh) → shapeOf mr = sh → ∀ (c p : ℕ),
    pget (mostRecentAfter fs mr) c p
      = (fs.map (fun f => pget f c p)).foldl
          (fun acc x => if x.isSome then x else acc) (pget mr c p)
  | [], _, _, _, _, _, _ => rfl
  | f :: rest, mr, sh, hfs, hm, c, p => by
      have hf : shapeOf f = sh := hfs f (by simp)
      have ih := pget_mostRecentAfter rest (step2 f mr) sh
        (fun g hg => hfs g (by simp [hg])) (shapeOf_step2 f mr sh hf hm) c p
      have hstep := pget_step2 f mr (hf.trans hm.symm) c p
      simp only [mostRecentAfter, List.foldl_cons, List.map_cons] at ih ⊢
      rw [ih, hstep]
      rfl

lemma pget_emitFrame (mr fo : GFrame) (h : shapeOf mr = shapeOf fo) (c p : ℕ) :
    pget (emitFrame mr fo) c p = emitPx (pget mr c p) (pget fo c p) :=
  pget_zipzip emitPx rfl mr fo h c p

lemma pass2_getD : ∀ (fs : List GFrame) (mr fo : GFrame) (k : ℕ), k < fs.length →
    (pass2 fs mr fo).getD k [] = emitFrame (mostRecentAfter (fs.take (k + 1)) mr) fo
  | [], _, _, k, hk => absurd hk (by simp)
  | f :: rest, mr, fo, 0, _ => by simp [pass2, mostRecentAfter]
  | f :: rest, mr, fo, k + 1, hk => by
      have ih := pass2_getD rest (step2 f mr) fo k (by simpa using hk)
      simpa [pass2, mostRecentAfter, List.take_succ_cons] using ih

lemma length_pass2 : ∀ (fs : List GFrame) (mr fo : GFrame),
    (pass2 fs mr fo).length = fs.length
  | [], _, _ => rfl
  | f :: rest, mr, fo => by
      simp [pass2, length_pass2 rest (step2 f mr) fo]

/-- C2 (amended): each emitted frame of `_fill_gaps` equals, per channel and
per pixel: where the pass-1 baseline is NaN, NaN — not zero, since the
emission formula multiplies the NaN baseline into the output
(`0 * NaN = 1 * NaN = NaN`); where the baseline is finite, the most recent
finite observation seen so far by the second cursor where one exists,
otherwise the baseline value.  In particular a pixel that is NaN at every
timepoint in both passes is NaN in every output frame. -/
theorem fill_gaps_amended (fs1 fs2 : List GFrame) (sh : List ℕ)
    (h1 : ∀ f ∈ fs1, shapeOf f = sh) (h2 : ∀ f ∈ fs2, shapeOf f = sh)
    (hne : fs1 ≠ []) (k c p : ℕ) (hk : k < fs2.length) :
    pget ((fill_gaps fs1 fs2).getD k []) c p =
      match pget (gapsBaseline fs1) c p with
      | Option.none => Option.none
      | some b =>
          some ((lastFinite ((fs2.take (k + 1)).map (fun f => pget f c p))).getD b) := by
  obtain ⟨f0, rest, rfl⟩ : ∃ f0 rest, fs1 = f0 :: rest := by
    cases fs1 with
    | nil => exact absurd rfl hne
    | cons a l => exact ⟨a, l, rfl⟩
  have hfobs : shapeOf (pass1 rest f0) = sh :=
    shapeOf_pass1 rest f0 sh (fun g hg => h1 g (by simp [hg])) (h1 f0 (by simp))
  have hmr0 : shapeOf ((pass1 rest f0).map (fun ch => ch.map (fun _ => (Option.none : Px))))
      = sh := by rw [shapeOf_allNoneMap]; exact hfobs
  have htake : ∀ f ∈ fs2.take (k + 1), shapeOf f = sh :=
    fun f hf => h2 f (List.mem_of_mem_take hf)
  have hmra : shapeOf (mostRecentAfter (fs2.take (k + 1))
      ((pass1 rest f0).map (fun ch => ch.map (fun _ => (Option.none : Px))))) = sh :=
    shapeOf_mostRecentAfter _ _ sh htake hmr0
  have hout : (fill_gaps (f0 :: rest) fs2).getD k []
      = emitFrame (mostRecentAfter (fs2.take (k + 1))
          ((pass1 rest f0).map (fun ch => ch.map (fun _ => (Option.none : Px)))))
          (pass1 rest f0) := by
    simp only [fill_gaps]
    exact pass2_getD fs2 _ _ k hk
  have hbase : gapsBaseline (f0 :: rest) = pass1 rest f0 := rfl
  rw [hout, hbase,
    pget_emitFrame _ _ (hmra.trans hfobs.symm) c p,
    pget_mostRecentAfter (fs2.take (k + 1)) _ sh htake hmr0 c p,
    pget_allNoneMap]
  have hl : lastFinite ((fs2.take (k + 1)).map (fun f => pget f c p))
      = ((fs2.take (k + 1)).map (fun f => pget f c p)).foldl
          (fun acc x => if x.isSome then x else acc) Option.none := rfl
  rw [hl]
  cases hb : pget (pass1 rest f0) c p with
  | none =>
      cases hm : ((fs2.take (k + 1)).map (fun f => pget f c p)).foldl
          (fun acc x => if x.isSome then x else acc) Option.none with
      | none => rfl
      | some a => simp [emitPx, nanToNum, isnanInd, fadd, fmul]
  | some b =>
      cases hm : ((fs2.take (k + 1)).map (fun f => pget f c p)).foldl
          (fun acc x => if x.isSome then x else acc) Option.none with
      | none => simp [emitPx, nanToNum, isnanInd, fadd, fmul]
      | some a => simp [emitPx, nanToNum, isnanInd, fadd, fmul]

/-- A 2-frame, 1-channel, 2-pixel stream: pixel 0 starts finite then goes
NaN, pixel 1 starts NaN at frame 1. -/
def mixedStream : List GFrame := [[[some 1, Option.none]], [[Option.none, some 4]]]

/-- Witness for the amended C2 at a concrete stream, frame 1, channel 0,
pixel 0. -/
theorem fill_gaps_amended_witness :
    pget ((fill_gaps mixedStream mixedStream).getD 1 []) 0 0 =
      match pget (gapsBaseline mixedStream) 0 0 with
      | Option.none => Option.none
      | some b =>
          some ((lastFinite ((mixedStream.take 2).map (fun f => pget f 0 0))).getD b) :=
  fill_gaps_amended mixedStream mixedStream [2]
    (by decide) (by decide) (by decide) 1 0 0 (by decide)

/-- Channelwise zip identity: a combinator that returns its left argument on
finite pairs makes the frame-level zip the identity on the left frame. -/
lemma zipzip_left (F : Px → Px → Px) : ∀ (A B : GFrame),
    (∀ a b, a ∈ A → b ∈ B → a.length = b.length → List.zipWith F a b = a) →
    shapeOf A = shapeOf B →
    List.zipWith (fun x y => List.zipWith F x y) A B = A
  | [], _, _, _ => by simp
  | a :: A, [], _, h => by simp [shapeOf] at h
  | a :: A, b :: B, hchan, h => by
      obtain ⟨h1, h2⟩ := shapeOf_cons h
      simp only [List.zipWith_cons_cons]
      rw [hchan a b (by simp) (by simp) h1,
        zipzip_left F A B (fun x y hx hy => hchan x y (by simp [hx]) (by simp [hy])) h2]

lemma zipWith_firstSome_left : ∀ (a b : Chan),
    (∀ x ∈ a, x.isSome = true) → a.length = b.length → List.zipWith firstSome a b = a
  | [], _, _, _ => by simp
  | x :: a, [], _, h => by simp at h
  | x :: a, y :: b, hfin, h => by
      have hx : x.isSome = true := hfin x (by simp)
      simp only [List.zipWith_cons_cons, firstSome, hx, if_pos]
      rw [zipWith_firstSome_left a b (fun u hu => hfin u (by simp [hu])) (by simpa using h)]

lemma zipWith_emitPx_left : ∀ (a b : Chan),
    (∀ x ∈ a, x.isSome = true) → (∀ x ∈ b, x.isSome = true) → a.length = b.length →
    List.zipWith emitPx a b = a
  | [], _, _, _, _ => by simp
  | x :: a, [], _, _, h => by simp at h
  | x :: a, y :: b, hfa, hfb, h => by
      obtain ⟨vx, rfl⟩ := Option.isSome_iff_exists.mp (hfa x (by simp))
      obtain ⟨vy, rfl⟩ := Option.isSome_iff_exists.mp (hfb y (by simp))
      simp only [List.zipWith_cons_cons]
      rw [zipWith_emitPx_left a b (fun u hu => hfa u (by simp [hu]))
        (fun u hu => hfb u (by simp [hu])) (by simpa using h)]
      simp [emitPx, nanToNum, isnanInd, fadd, fmul]

/-- Finiteness of every pixel of a frame. -/
abbrev frameFinite (f : GFrame) : Prop := ∀ ch ∈ f, ∀ x ∈ ch, x.isSome = true

lemma step1_finite (fobs f : GFrame) (hfin : frameFinite fobs)
    (h : shapeOf fobs = shapeOf f) : step1 fobs f = fobs := by
  rw [step1_eq_zip fobs f h]
  exact zipzip_left firstSome fobs f
    (fun a b ha _ hl => zipWith_firstSome_left a b (hfin a ha) hl) h

lemma step2_finite (f mr : GFrame) (hfin : frameFinite f)
    (h : shapeOf f = shapeOf mr) : step2 f mr = f := by
  rw [step2_eq_zip f mr h]
  exact zipzip_left firstSome f mr
    (fun a b ha _ hl => zipWith_firstSome_left a b (hfin a ha) hl) h

lemma emitFrame_finite (mr fo : GFrame) (hm : frameFinite mr) (hf : frameFinite fo)
    (h : shapeOf mr = shapeOf fo) : emitFrame mr fo = mr :=
  zipzip_left emitPx mr fo
    (fun a b ha hb hl => zipWith_emitPx_left a b (hm a ha) (hf b hb) hl) h

lemma allFinite_true (f : GFrame) (h : frameFinite f) : allFinite f = true := by
  simp only [allFinite, List.all_eq_true]
  exact h

lemma pass1_finite (rest : List GFrame) (f0 : GFrame) (hfin : frameFinite f0)
    (hsh : ∀ r ∈ rest, shapeOf r = shapeOf f0) : pass1 rest f0 = f0 := by
  cases rest with
  | nil => rfl
  | cons r rs =>
      rw [pass1, step1_finite f0 r hfin (hsh r (by simp)).symm, allFinite_true f0 hfin]
      simp

lemma pass2_identity : ∀ (fs : List GFrame) (mr fo : GFrame) (sh : List ℕ),
    shapeOf mr = sh → shapeOf fo = sh →
    (∀ f ∈ fs, shapeOf f = sh ∧ frameFinite f) → frameFinite fo →
    pass2 fs mr fo = fs
  | [], _, _, _, _, _, _, _ => rfl
  | f :: rest, mr, fo, sh, hm, ho, hfs, hofin => by
      obtain ⟨hfsh, hffin⟩ := hfs f (by simp)
      have hstep : step2 f mr = f := step2_finite f mr hffin (hfsh.trans hm.symm)
      have hemit : emitFrame f fo = f := emitFrame_finite f fo hffin hofin
        (hfsh.trans ho.symm)
      rw [pass2, hstep, hemit,
        pass2_identity rest f fo sh hfsh ho (fun g hg => hfs g (by simp [hg])) hofin]

/-- C7: on an input stream in which every pixel of every channel of every
frame is finite, `_fill_gaps` emits exactly the input frames unchanged, in
order. -/
theorem fill_gaps_identity_on_finite (fs : List GFrame) (sh : List ℕ)
    (hsh : ∀ f ∈ fs, shapeOf f = sh)
    (hfin : ∀ f ∈ fs, frameFinite f) :
    fill_gaps fs fs = fs := by
  cases fs with
  | nil => rfl
  | cons f0 rest =>
      have hf0 : shapeOf f0 = sh := hsh f0 (by simp)
      have hp1 : pass1 rest f0 = f0 := pass1_finite rest f0 (hfin f0 (by simp))
        (fun r hr => (hsh r (by simp [hr])).trans hf0.symm)
      have hmr0 : shapeOf (f0.map (fun ch => ch.map (fun _ => (Option.none : Px)))) = sh :=
        (shapeOf_allNoneMap f0).trans hf0
      show pass2 (f0 :: rest)
        ((pass1 rest f0).map (fun ch => ch.map (fun _ => (Option.none : Px))))
        (pass1 rest f0) = f0 :: rest
      rw [hp1]
      exact pass2_identity (f0 :: rest) _ f0 sh hmr0 hf0
        (fun g hg => ⟨hsh g hg, hfin g hg⟩) (hfin f0 (by simp))

/-- A 2-frame all-finite stream for the C7 witness. -/
def finiteStream : List GFrame := [[[some 1, some 2]], [[some 3, some 4]]]

/-- Witness for C7 at a concrete all-finite stream. -/
theorem fill_gaps_identity_on_finite_witness :
    fill_gaps finiteStream finiteStream = finiteStream :=
  fill_gaps_identity_on_finite finiteStream [2] (by decide) (by decide)

/-! ### C8: `_resolve_paths` behaviour -/

lemma popLastE_cons : ∀ (x : String) (xs : List String),
    ∃ z r, popLastE (x :: xs) = Except.ok (z, r) ∧ r.length = xs.length
  | x, [] => ⟨x, [], rfl, rfl⟩
  | x, y :: ys => by
      obtain ⟨z, r, hzr, hlen⟩ := popLastE_cons y ys
      exact ⟨z, x :: r, by simp [popLastE, hzr, bind, Except.bind], by simp [hlen]⟩

lemma resolveCore_nil (fs : FileSys) :
    resolveCore fs [] = Except.error PyErr.indexError := rfl

lemma resolveCore_single (fs : FileSys) (p : String) :
    resolveCore fs [p] = Except.ok p := rfl

lemma resolveCore_pair (fs : FileSys) (p q : String) :
    resolveCore fs [p, q]
      = if fs.fileId q = fs.fileId p then Except.ok p
        else Except.error PyErr.movedError := by
  by_cases h : fs.fileId q = fs.fileId p
  · simp [resolveCore, popLastE, h, bind, Except.bind]
  · simp [resolveCore, popLastE, h, bind, Except.bind]

lemma resolveCore_ne_missing (fs : FileSys) : ∀ (l : List String),
    resolveCore fs l ≠ Except.error PyErr.missingFileError
  | [] => by rw [resolveCore_nil]; exact fun h => PyErr.noConfusion (Except.error.inj h)
  | [p] => by rw [resolveCore_single]; exact fun h => Except.noConfusion h
  | p :: q :: rest => by
      obtain ⟨z, r, hzr, hlen⟩ := popLastE_cons p (q :: rest)
      have hlen2 : ¬ (p :: q :: rest).length = 1 := by simp
      obtain ⟨x, xs, hx⟩ : ∃ x xs, r = x :: xs := by
        cases r with
        | nil => simp at hlen
        | cons a l => exact ⟨a, l, rfl⟩
      obtain ⟨z2, r2, hzr2, _⟩ := popLastE_cons x xs
      rw [resolveCore, if_neg hlen2]
      simp only [hzr, hx, bind, Except.bind]
      split
      · rw [hzr2]
        exact fun h => Except.noConfusion h
      · exact fun h => PyErr.noConfusion (Except.error.inj h)

/-- C8 (amended): `_resolve_paths` computes both candidate absolute locations
and keeps those that exist.  Exactly one existing candidate is used; two
existing candidates that are not the identical file raise the
'Files have been moved' ambiguity error; two existing candidates that are the
identical file resolve to the first; and when no candidate exists the call
fails — but with an `IndexError` from popping an empty list, not with a
dedicated missing-file error, which the source can never raise. -/
theorem resolve_paths_behaviour (fs : FileSys) (savedir : String) (d : PathDict)
    (hne : candidates savedir d ≠ []) :
    ((candidates savedir d).filter fs.isfile = [] →
        resolve_paths fs savedir d = Except.error PyErr.indexError)
  ∧ (∀ p, (candidates savedir d).filter fs.isfile = [p] →
        resolve_paths fs savedir d = Except.ok (some p))
  ∧ (∀ p q, (candidates savedir d).filter fs.isfile = [p, q] →
        fs.fileId p ≠ fs.fileId q →
        resolve_paths fs savedir d = Except.error PyErr.movedError)
  ∧ (∀ p q, (candidates savedir d).filter fs.isfile = [p, q] →
        fs.fileId p = fs.fileId q →
        resolve_paths fs savedir d = Except.ok (some p))
  ∧ resolve_paths fs savedir d ≠ Except.error PyErr.missingFileError := by
  have hemp : ¬ (candidates savedir d).isEmpty = true := by
    simpa [List.isEmpty_iff] using hne
  have hre : resolve_paths fs savedir d
      = (resolveCore fs ((candidates savedir d).filter fs.isfile)).map some := by
    rw [resolve_paths, if_neg hemp]
  refine ⟨?_, ?_, ?_, ?_, ?_⟩
  · intro h
    rw [hre, h, resolveCore_nil]
    rfl
  · intro p h
    rw [hre, h, resolveCore_single]
    rfl
  · intro p q h hid
    rw [hre, h, resolveCore_pair, if_neg (fun hh => hid hh.symm)]
    rfl
  · intro p q h hid
    rw [hre, h, resolveCore_pair, if_pos hid.symm]
    rfl
  · rw [hre]
    intro h
    cases hr : resolveCore fs ((candidates savedir d).filter fs.isfile) with
    | ok v => rw [hr] at h; exact Except.noConfusion h
    | error e =>
        rw [hr] at h
        have he : e = PyErr.missingFileError := by
          simpa [Except.map] using h
        exact resolveCore_ne_missing fs _ (hr.trans (by rw [he]))

/-- The file system of the C8 witness: only the project-relative candidate
exists. -/
def relOnlySys : FileSys := ⟨fun s => s = "/proj/data.h5", fun _ => 0⟩

/-- The serialised paths of the C8 witness. -/
def relAbsDict : PathDict := ⟨some "data.h5", some "/elsewhere/data.h5"⟩

/-- Witness for C8 at a concrete file system on which exactly the relative
candidate exists. -/
theorem resolve_paths_behaviour_witness :
    ((candidates "/proj" relAbsDict).filter relOnlySys.isfile = [] →
        resolve_paths relOnlySys "/proj" relAbsDict = Except.error PyErr.indexError)
  ∧ (∀ p, (candidates "/proj" relAbsDict).filter relOnlySys.isfile = [p] →
        resolve_paths relOnlySys "/proj" relAbsDict = Except.ok (some p))
  ∧ (∀ p q, (candidates "/proj" relAbsDict).filter relOnlySys.isfile = [p, q] →
        relOnlySys.fileId p ≠ relOnlySys.fileId q →
        resolve_paths relOnlySys "/proj" relAbsDict = Except.error PyErr.movedError)
  ∧ (∀ p q, (candidates "/proj" relAbsDict).filter relOnlySys.isfile = [p, q] →
        relOnlySys.fileId p = relOnlySys.fileId q →
        resolve_paths relOnlySys "/proj" relAbsDict = Except.ok (some p))
  ∧ resolve_paths relOnlySys "/proj" relAbsDict ≠ Except.error PyErr.missingFileError :=
  resolve_paths_behaviour relOnlySys "/proj" relAbsDict (by decide)

end Sima
